import Mathlib

/-!
Verification development for the go-pkg httpserver package.

This file gives a shallow embedding of the decision logic and the
shutdown-tracking state machines of the httpserver package (tls.go,
h2c.go, h1h2.go, h3.go, panic.go, server.go and the connection tracking
hook), and proves the specified properties about them.  Machine bytes are
modelled as Nat, Go errors and panic values as inductive types, fallible
or panicking code as Option/Except, and the concurrent shutdown protocol
as explicit step relations on state types whose atomic steps correspond
to the critical sections of the source (mutex-protected blocks and
WaitGroup operations).
-/

namespace HTTPServer

/-! ### TLS sniffing acceptor, from tls.go -/

/-- Result of the sniff method of tlsAcceptor (tls.go): either a
server-side TLS session built by tls.Server over the buffered connection,
or the buffered connection passed through unwrapped.  The field records
the byte stream readable downstream; the one-byte bufio reader retains a
peeked byte, so no byte is ever lost or reordered. -/
inductive SniffedConn where
  | tlsServer (stream : List Nat)
  | plainBuffered (stream : List Nat)
  deriving DecidableEq

/-- Bytes readable downstream from the sniffed connection. -/
def SniffedConn.readable : SniffedConn → List Nat
  | .tlsServer s => s
  | .plainBuffered s => s

/-- Whether the sniffed connection is a server-side TLS session. -/
def SniffedConn.isTLS : SniffedConn → Bool
  | .tlsServer _ => true
  | .plainBuffered _ => false

/-- The TLS handshake record type byte (tls.go, constant
recordTypeHandshake = 22). -/
def recordTypeHandshake : Nat := 22

/-- Model of (\*tlsAcceptor).sniff from tls.go.  The bytes the client will
deliver are stream; timedOut is true when the one-byte peek does not
complete within the read deadline.  The peek (br.Peek 1) fails when it
times out or the connection yields no byte (EOF or error).  The source
returns the plain buffered connection when the peek failed or the byte
differs from recordTypeHandshake, and wraps in tls.Server only when the
peek succeeded with byte 22.  In every case the downstream reader is the
same bufio reader, so the readable stream is the original stream. -/
def sniff (stream : List Nat) (timedOut : Bool) : SniffedConn :=
  let peek : Option Nat := if timedOut then none else stream.head?
  match peek with
  | none => .plainBuffered stream
  | some b =>
      if b = recordTypeHandshake then .tlsServer stream else .plainBuffered stream

/-! ### H2C request detection, from h2c.go ServeHTTP -/

/-- The parts of an http.Request inspected by the h2c dispatch: method,
the header map (modelled as an association list of key and values), the
URL path and the protocol version string. -/
structure Request where
  method : String
  headers : List (String × List String)
  urlPath : String
  proto : String
  deriving DecidableEq

/-- Which handler a request is dispatched to by (\*h2cHandler).ServeHTTP:
the prior-knowledge cleartext HTTP/2 path, or the fallback handler, which
receives the request unchanged. -/
inductive Dispatch where
  | priorKnowledgeH2C (r : Request)
  | fallback (r : Request)
  deriving DecidableEq

/-- Model of (\*h2cHandler).ServeHTTP dispatch (h2c.go): the
prior-knowledge path is entered exactly when the method is PRI, the
header set is empty, the URL path is the asterisk form and the protocol
is HTTP/2.0; otherwise the fallback handler is called on the same
request. -/
def h2cServeHTTP (r : Request) : Dispatch :=
  if r.method = "PRI" ∧ r.headers = [] ∧ r.urlPath = "*" ∧ r.proto = "HTTP/2.0" then
    .priorKnowledgeH2C r
  else
    .fallback r

/-! ### H2C prior-knowledge initialization, from h2c.go -/

/-- The byte sequence expected immediately after the hijack, the constant
expectedBody in initH2CWithPriorKnowledge: the bytes of SM CR LF CR LF. -/
def expectedBody : List Nat := [83, 77, 13, 10, 13, 10]

/-- The full HTTP/2 client preface (http2.ClientPreface): the bytes of
PRI SP ASTERISK SP HTTP/2.0 CR LF CR LF followed by expectedBody. -/
def clientPreface : List Nat :=
  [80, 82, 73, 32, 42, 32, 72, 84, 84, 80, 47, 50, 46, 48, 13, 10, 13, 10] ++ expectedBody

/-- Outcome of (\*h2cHandler).initH2CWithPriorKnowledge: conn is the
readable byte stream of the reconstructed connection on success (none on
error), and rawConnClosed records whether the hijacked raw connection was
closed on the error path. -/
structure H2CInitResult where
  conn : Option (List Nat)
  rawConnClosed : Bool
  deriving DecidableEq

/-- Model of initH2CWithPriorKnowledge (h2c.go).  Inputs: whether the
ResponseWriter supports hijacking, whether the Hijack call succeeds, and
body, the bytes buffered or readable on the connection after the request
line.  The source reads exactly expectedBody.length bytes with
io.ReadFull: a short read is an error and closes the connection; a full
read that differs from expectedBody is an error and closes the
connection; on an exact match the connection is rebuilt so that reads
serve the reconstructed client preface followed by the remaining buffered
bytes (io.MultiReader of http2.ClientPreface and the hijacked reader). -/
def initH2CWithPriorKnowledge (hijackSupported hijackOK : Bool) (body : List Nat) :
    H2CInitResult :=
  if !hijackSupported then ⟨none, false⟩
  else if !hijackOK then ⟨none, false⟩
  else if body.length < expectedBody.length then ⟨none, true⟩
  else if body.take expectedBody.length ≠ expectedBody then ⟨none, true⟩
  else ⟨some (clientPreface ++ body.drop expectedBody.length), false⟩

/-- Outcome of (\*h2cHandler).serveH2CWithPriorKnowledge: either the
handler panics with http.ErrAbortHandler (after logging), producing no
response and never serving the connection, or the reconstructed
connection is handed to (\*http2.Server).ServeConn. -/
inductive ServeOutcome where
  | abortPanic
  | serveConn (readable : List Nat)
  deriving DecidableEq

/-- Model of serveH2CWithPriorKnowledge (h2c.go): on an initialization
error it panics with http.ErrAbortHandler, otherwise it passes the
reconstructed connection to the HTTP/2 engine. -/
def serveH2CWithPriorKnowledge (hijackSupported hijackOK : Bool) (body : List Nat) :
    ServeOutcome :=
  match (initH2CWithPriorKnowledge hijackSupported hijackOK body).conn with
  | none => .abortPanic
  | some s => .serveConn s

/-! ### The abortable handler gate, from the abortableHandler file, and
the tail of (\*Server).Run from server.go.

The mutex in abortableHandler makes the check of the stopped flag and the
increment of the WaitGroup one atomic step; we model each such critical
section as one labelled transition.  GateState.stopped is the stopped
field, GateState.inflight the WaitGroup counter, GateState.stopReturned
records that Stop has returned (wg.Wait completed). -/

structure GateState where
  stopped : Bool
  inflight : Nat
  stopReturned : Bool
  deriving DecidableEq

/-- Atomic events of abortableHandler.  enterOK: ServeHTTP observes
stopped false and increments the counter, then invokes the wrapped
handler.  enterAbort: ServeHTTP observes stopped true and panics with
http.ErrAbortHandler without invoking the wrapped handler.  exitHandler:
a wrapped-handler invocation returns and the deferred wg.Done runs.
stopSet: Stop sets the stopped flag under the mutex.  stopReturn:
wg.Wait observes a zero counter and Stop returns. -/
inductive GateEvent where
  | enterOK
  | enterAbort
  | exitHandler
  | stopSet
  | stopReturn
  deriving DecidableEq

/-- Initial state of a fresh abortableHandler. -/
def gateInit : GateState := ⟨false, 0, false⟩

/-- One atomic step of abortableHandler; none means the event is not
enabled in the given state (its guard, taken from the source, fails). -/
def gateStep (s : GateState) : GateEvent → Option GateState
  | .enterOK => if s.stopped then none else some { s with inflight := s.inflight + 1 }
  | .enterAbort => if s.stopped then some s else none
  | .exitHandler =>
      match s.inflight with
      | 0 => none
      | n + 1 => some { s with inflight := n }
  | .stopSet => some { s with stopped := true }
  | .stopReturn =>
      if s.stopped = true ∧ s.inflight = 0 then some { s with stopReturned := true }
      else none

/-- Run a sequence of gate events from a state; none when some event in
the sequence is not enabled. -/
def gateRun (s : GateState) : List GateEvent → Option GateState
  | [] => some s
  | e :: tr =>
      match gateStep s e with
      | none => none
      | some s2 => gateRun s2 tr

/-- Number of wrapped-handler invocations started in a trace. -/
def countEnter (tr : List GateEvent) : Nat := tr.count GateEvent.enterOK

/-- Number of wrapped-handler invocations completed in a trace. -/
def countExit (tr : List GateEvent) : Nat := tr.count GateEvent.exitHandler

/-- Events of one (\*Server).Run execution, as far as handler invocations
are concerned.  Every path from any protocol engine to the user handler
goes through the one abortableHandler built in Run (server.go: the H1/H2
handler, the h2c handler and fallback, and the HTTP/3 handler all wrap
the same abortable handler), so engine-initiated handler calls are gate
events.  runReturn is the return of Run itself. -/
inductive RunEvent where
  | gate (e : GateEvent)
  | runReturn
  deriving DecidableEq

/-- State of one Run execution: the gate state plus whether Run has
returned. -/
structure RunState where
  gate : GateState
  returned : Bool
  deriving DecidableEq

/-- Initial state of a Run execution. -/
def runInit : RunState := ⟨gateInit, false⟩

/-- One atomic step at the Run level.  Gate events may occur at any time
(protocol engines act from their own goroutines).  The source of Run ends
with listenAndServe.Run, connWG.Wait, the optional h2c Shutdown, then
sh.Stop and return: hence the runReturn event is enabled only after Stop
has returned (gate.stopReturned). -/
def runStep (s : RunState) : RunEvent → Option RunState
  | .gate e => (gateStep s.gate e).map fun g => ⟨g, s.returned⟩
  | .runReturn =>
      if s.gate.stopReturned = true ∧ s.returned = false then some ⟨s.gate, true⟩
      else none

/-- Run a sequence of Run-level events from a state. -/
def runRun (s : RunState) : List RunEvent → Option RunState
  | [] => some s
  | e :: tr =>
      match runStep s e with
      | none => none
      | some s2 => runRun s2 tr

/-- Number of user-handler invocations started in a Run trace. -/
def countEnterRun (tr : List RunEvent) : Nat := tr.count (RunEvent.gate GateEvent.enterOK)

/-- Number of user-handler invocations completed in a Run trace. -/
def countExitRun (tr : List RunEvent) : Nat := tr.count (RunEvent.gate GateEvent.exitHandler)

/-! ### Connection lifecycle tracking, from the connTrack hook and the
pending-connection bookkeeping of h2cHandler (h2c.go) -/

/-- The http.ConnState values observed by the ConnState hook. -/
inductive ConnState where
  | stateNew
  | stateActive
  | stateIdle
  | stateHijacked
  | stateClosed
  deriving DecidableEq

/-- Effect of one notification on the connWG WaitGroup. -/
inductive WGAction where
  | add
  | done
  | noop
  deriving DecidableEq

/-- Model of (\*Server).connTrack: StateNew increments connWG,
StateHijacked and StateClosed decrement it, every other state is
ignored. -/
def connTrack : ConnState → WGAction
  | .stateNew => .add
  | .stateHijacked => .done
  | .stateClosed => .done
  | _ => .noop

/-- Number of connWG increments produced by a notification sequence. -/
def connWGAdds (ns : List ConnState) : Nat :=
  ns.countP fun s => connTrack s == WGAction.add

/-- Number of connWG decrements produced by a notification sequence. -/
def connWGDones (ns : List ConnState) : Nat :=
  ns.countP fun s => connTrack s == WGAction.done

/-- Per-connection view of the h2cHandler pending map: whether the
connection is still a key of the conns map, and the boolean value stored
for it (tracked). -/
structure PendingConn where
  inMap : Bool
  tracked : Bool
  deriving DecidableEq

/-- Decrements applied so far to the two h2cHandler WaitGroups for one
pending connection (addPending performed one Add on each). -/
structure WGCounts where
  trackDone : Nat
  serveDone : Nat
  deriving DecidableEq

/-- Mutations applied to one pending connection after addPending:
setTracked (the ConnState hook of the BaseConfig fires) and removeConn
(the deferred removal in initH2CWithPriorKnowledge on error, or in
serveH2CWithPriorKnowledge when ServeConn returns). -/
inductive PendingOp where
  | setTracked
  | removeConn
  deriving DecidableEq

/-- State of a connection right after (\*h2cHandler).addPending: in the
map, not yet tracked. -/
def addPendingState : PendingConn := ⟨true, false⟩

/-- Model of (\*h2cHandler).setTracked and removeConn (h2c.go), acting on
one pending connection; both run under connsMu, so each is one atomic
step.  setTracked returns unless the connection exists and is untracked,
otherwise marks it tracked and decrements trackWG.  removeConn returns
unless the connection exists, otherwise deletes it, decrements trackWG
when setTracked has not fired for it, and decrements serveWG. -/
def pendingStep : PendingConn × WGCounts → PendingOp → PendingConn × WGCounts
  | (st, c), .setTracked =>
      if st.inMap = true ∧ st.tracked = false then
        ({ st with tracked := true }, { c with trackDone := c.trackDone + 1 })
      else (st, c)
  | (st, c), .removeConn =>
      if st.inMap = true then
        ({ st with inMap := false },
         { trackDone := c.trackDone + (if st.tracked then 0 else 1),
           serveDone := c.serveDone + 1 })
      else (st, c)

/-- Fold a sequence of operations over a freshly added pending
connection, starting from zero decrements. -/
def pendingRun (ops : List PendingOp) : PendingConn × WGCounts :=
  ops.foldl pendingStep (addPendingState, ⟨0, 0⟩)

/-! ### Once-close listener wrappers, from h1h2.go and h3.go -/

/-- The underlying listener as the once-close wrappers see it: the result
its Close would return, and how many times Close has executed. -/
structure GoListener where
  closeResult : Option Nat
  closeCount : Nat
  deriving DecidableEq

/-- The sync.Once plus cached error of onceCloseListener (h1h2.go) and
onceCloseEarlyListener (h3.go); the two wrappers have identical code. -/
structure OnceClose where
  done : Bool
  err : Option Nat
  deriving DecidableEq

/-- Model of (\*onceCloseListener).Close and
(\*onceCloseEarlyListener).Close: sync.Once serializes concurrent
callers, so the linearized behaviour is: the first call executes the
underlying Close and caches its result, every call returns the cached
result. -/
def onceCloseListenerClose (u : GoListener) (st : OnceClose) :
    GoListener × OnceClose × Option Nat :=
  if st.done then (u, st, st.err)
  else ({ u with closeCount := u.closeCount + 1 }, ⟨true, u.closeResult⟩, u.closeResult)

/-- Perform n successive Close calls, returning the final underlying
listener, the final wrapper state and the list of results returned to
the callers. -/
def closeCalls (u : GoListener) (st : OnceClose) : Nat → GoListener × OnceClose × List (Option Nat)
  | 0 => (u, st, [])
  | n + 1 =>
      let r := onceCloseListenerClose u st
      let rest := closeCalls r.1 r.2.1 n
      (rest.1, rest.2.1, r.2.2 :: rest.2.2)

/-! ### Terminal error aggregation of the runners, from h1h2.go and
h3.go -/

/-- Go error values relevant to the runner tails: the
http.ErrServerClosed sentinel, the quic.ErrServerClosed sentinel, and
arbitrary other errors. -/
inductive GoErr where
  | httpErrServerClosed
  | quicErrServerClosed
  | other (n : Nat)
  deriving DecidableEq

/-- Model of multierr.Combine: nil errors are skipped; the result is nil
exactly when every input is nil, and otherwise carries all non-nil inputs
in order. -/
def multierrCombine (es : List (Option GoErr)) : Option (List GoErr) :=
  match es.filterMap id with
  | [] => none
  | l => some l

/-- Serve-error normalization in (\*serveH1H2).Run: http.ErrServerClosed
is treated as success. -/
def normalizeServeErrorH1H2 (e : Option GoErr) : Option GoErr :=
  if e = some GoErr.httpErrServerClosed then none else e

/-- The returned error of (\*serveH1H2).Run, from its final lines:
multierr.Combine of the callback error, the normalized serve error and
the listener close error. -/
def runResultH1H2 (callbackError serveError closeError : Option GoErr) :
    Option (List GoErr) :=
  multierrCombine [callbackError, normalizeServeErrorH1H2 serveError, closeError]

/-- Serve-error normalization in (\*serveH3).Run: quic.ErrServerClosed
and http.ErrServerClosed are treated as success. -/
def normalizeServeErrorH3 (e : Option GoErr) : Option GoErr :=
  if e = some GoErr.quicErrServerClosed ∨ e = some GoErr.httpErrServerClosed then none
  else e

/-- The returned error of (\*serveH3).Run, from its final lines:
multierr.Combine of the callback error, the normalized serve error, the
QUIC listener close error and the packet-conn close error. -/
def runResultH3 (callbackError serveError closeError closePacketConnError : Option GoErr) :
    Option (List GoErr) :=
  multierrCombine
    [callbackError, normalizeServeErrorH3 serveError, closeError, closePacketConnError]

/-! ### Fatal handling of unexpected handler panics, from panic.go -/

/-- Values a handler may panic with: the deliberate abort signal
http.ErrAbortHandler, or any other value. -/
inductive PanicVal where
  | errAbortHandler
  | other (n : Nat)
  deriving DecidableEq

/-- Process-level outcome of the deferred exitOnPanic call: the handler
function returns normally, or the process prints the panic value plus a
stack trace to stderr and terminates with the given exit status. -/
inductive ProcOutcome where
  | normalReturn
  | exited (code : Nat) (diagnosticsPrinted : Bool)
  deriving DecidableEq

/-- Model of exitOnPanic (panic.go): recovered is the value returned by
recover (none when the handler did not panic).  No panic, or a panic
whose value is in the except list, leaves the process running; any other
recovered value prints diagnostics and calls os.Exit 2. -/
def exitOnPanic (except : List PanicVal) (recovered : Option PanicVal) : ProcOutcome :=
  match recovered with
  | none => .normalReturn
  | some e => if e ∈ except then .normalReturn else .exited 2 true

/-- Model of the wrapper built by exitOnPanicHandler (panic.go), which
defers exitOnPanic with the single exception http.ErrAbortHandler; Run
(server.go) installs exactly this wrapper around the abortable handler. -/
def exitOnPanicHandler (recovered : Option PanicVal) : ProcOutcome :=
  exitOnPanic [PanicVal.errAbortHandler] recovered

/-! ### TLS socket constructors, from tls.go -/

/-- The parts of crypto/tls Config relevant here: the NextProtos field
(nil or a list), plus an abstract remainder standing for every other
field, used to state that cloning preserves them. -/
structure TLSConfig where
  nextProtos : Option (List String)
  rest : Nat
  deriving DecidableEq

/-- Go runtime panics relevant to the constructors. -/
inductive GoPanic where
  | nilPointerDereference
  deriving DecidableEq

/-- The http2.NextProtoTLS constant. -/
def http2NextProtoTLS : String := "h2"

/-- Model of defaultNextProtosH2 (tls.go).  The Go argument is a pointer:
none models a nil pointer, whose NextProtos field access panics with a
nil-pointer dereference.  On success the pair is (the caller object after
the call, the returned configuration): when NextProtos is already set the
same object is returned untouched; otherwise the object is cloned, the
clone gets NextProtos set to the single element h2, and the caller object
is left unchanged. -/
def defaultNextProtosH2 (c : Option TLSConfig) : Except GoPanic (TLSConfig × TLSConfig) :=
  match c with
  | none => .error .nilPointerDereference
  | some cfg =>
      if cfg.nextProtos.isSome then .ok (cfg, cfg)
      else .ok (cfg, { cfg with nextProtos := some [http2NextProtoTLS] })

/-- The tlsListener value built by the TLS and OptionalTLS constructors:
the stored address, the stored TLS configuration, the Optional flag and
the sniff timeout in milliseconds. -/
structure TLSListenerDesc where
  address : String
  tlsConfig : TLSConfig
  optional : Bool
  timeout : Int
  deriving DecidableEq

/-- Model of the TLS constructor (tls.go): it evaluates
defaultNextProtosH2 at construction time, before any Listen call can
happen on the result; a nil configuration therefore panics immediately
and no socket is produced.  The success value pairs the caller
configuration after the call with the constructed socket descriptor. -/
def TLS (address : String) (c : Option TLSConfig) :
    Except GoPanic (TLSConfig × TLSListenerDesc) :=
  (defaultNextProtosH2 c).map fun p => (p.1, ⟨address, p.2, false, 0⟩)

/-- Model of the OptionalTLS constructor (tls.go): a non-positive timeout
defaults to 50 milliseconds, and defaultNextProtosH2 is evaluated at
construction time exactly as in TLS. -/
def OptionalTLS (address : String) (c : Option TLSConfig) (timeout : Int) :
    Except GoPanic (TLSConfig × TLSListenerDesc) :=
  let t := if timeout ≤ 0 then 50 else timeout
  (defaultNextProtosH2 c).map fun p => (p.1, ⟨address, p.2, true, t⟩)

/-- Invariant of one pending h2c connection after addPending: either it
is still untracked in the map with no decrement yet, or tracked in the
map with exactly the trackWG decrement done, or removed with exactly one
decrement on each WaitGroup. -/
def PendingInv (p : PendingConn × WGCounts) : Prop :=
  (p.1.inMap = true ∧ p.1.tracked = false ∧ p.2.trackDone = 0 ∧ p.2.serveDone = 0)
  ∨ (p.1.inMap = true ∧ p.1.tracked = true ∧ p.2.trackDone = 1 ∧ p.2.serveDone = 0)
  ∨ (p.1.inMap = false ∧ p.2.trackDone = 1 ∧ p.2.serveDone = 1)

/-! ## Theorems -/

/-- Running a concatenated gate trace is running the two parts in
sequence. -/
theorem gateRun_append (a b : List GateEvent) (s : GateState) :
    gateRun s (a ++ b) = (gateRun s a).bind fun s2 => gateRun s2 b := by
  induction a generalizing s with
  | nil => simp [gateRun]
  | cons e tr ih =>
      simp only [List.cons_append, gateRun]
      cases gateStep s e with
      | none => simp
      | some s2 => simp [ih]

/-- A single gate step from a stopped, drained state keeps the state
stopped and drained and can not be a handler entry. -/
theorem gateStep_drained {s s2 : GateState} {e : GateEvent}
    (h1 : s.stopped = true) (h2 : s.inflight = 0) (h : gateStep s e = some s2) :
    s2.stopped = true ∧ s2.inflight = 0 ∧ e ≠ GateEvent.enterOK := by
  cases e with
  | enterOK => simp [gateStep, h1] at h
  | enterAbort =>
      simp [gateStep, h1] at h
      subst h
      exact ⟨h1, h2, by simp⟩
  | exitHandler => simp [gateStep, h2] at h
  | stopSet =>
      simp [gateStep] at h
      subst h
      exact ⟨rfl, h2, by simp⟩
  | stopReturn =>
      simp [gateStep, h1, h2] at h
      subst h
      exact ⟨rfl, rfl, by decide⟩

/-- A gate trace from a stopped, drained state keeps the state stopped
and drained and contains no handler entry. -/
theorem gateRun_drained {s s2 : GateState} {tr : List GateEvent}
    (h1 : s.stopped = true) (h2 : s.inflight = 0) (h : gateRun s tr = some s2) :
    s2.stopped = true ∧ s2.inflight = 0 ∧ GateEvent.enterOK ∉ tr := by
  induction tr generalizing s with
  | nil =>
      simp [gateRun] at h
      subst h
      exact ⟨h1, h2, by simp⟩
  | cons e rest ih =>
      simp only [gateRun] at h
      cases hs : gateStep s e with
      | none => rw [hs] at h; exact absurd h (by simp)
      | some sm =>
          rw [hs] at h
          obtain ⟨m1, m2, mne⟩ := gateStep_drained h1 h2 hs
          obtain ⟨r1, r2, rni⟩ := ih m1 m2 h
          refine ⟨r1, r2, ?_⟩
          simp only [List.mem_cons, not_or]
          exact ⟨fun hc => mne hc.symm, rni⟩

/-- A single gate step preserves the property that a returned Stop
implies a stopped and drained state. -/
theorem gateStep_stopReturned {s s2 : GateState} {e : GateEvent}
    (hsr : s.stopReturned = true → s.stopped = true ∧ s.inflight = 0)
    (h : gateStep s e = some s2) :
    s2.stopReturned = true → s2.stopped = true ∧ s2.inflight = 0 := by
  cases e with
  | enterOK =>
      by_cases hstop : s.stopped
      · simp [gateStep, hstop] at h
      · simp [gateStep, hstop] at h
        subst h
        intro hr
        simp only at hr
        exact absurd (hsr hr).1 (by simpa using hstop)
  | enterAbort =>
      by_cases hstop : s.stopped
      · simp [gateStep, hstop] at h
        subst h
        exact hsr
      · simp [gateStep, hstop] at h
  | exitHandler =>
      cases hn : s.inflight with
      | zero => simp [gateStep, hn] at h
      | succ m =>
          simp [gateStep, hn] at h
          subst h
          intro hr
          simp only at hr
          have := (hsr hr).2
          rw [hn] at this
          exact absurd this (by simp)
  | stopSet =>
      simp [gateStep] at h
      subst h
      intro hr
      simp only at hr
      exact ⟨rfl, (hsr hr).2⟩
  | stopReturn =>
      by_cases hc : s.stopped = true ∧ s.inflight = 0
      · simp [gateStep, hc.1, hc.2] at h
        subst h
        intro _
        exact ⟨rfl, rfl⟩
      · simp [gateStep] at h
        rcases h with ⟨ha, -⟩
        exact absurd ha hc

/-- A gate trace preserves the property that a returned Stop implies a
stopped and drained state. -/
theorem gateRun_stopReturned {s s2 : GateState} {tr : List GateEvent}
    (hsr : s.stopReturned = true → s.stopped = true ∧ s.inflight = 0)
    (h : gateRun s tr = some s2) :
    s2.stopReturned = true → s2.stopped = true ∧ s2.inflight = 0 := by
  induction tr generalizing s with
  | nil => simp [gateRun] at h; subst h; exact hsr
  | cons e rest ih =>
      simp only [gateRun] at h
      cases hs : gateStep s e with
      | none => rw [hs] at h; exact absurd h (by simp)
      | some sm =>
          rw [hs] at h
          exact ih (gateStep_stopReturned hsr hs) h

/-- A single gate step changes the in-flight counter by the balance of
handler entries and exits. -/
theorem gateStep_counts {s s2 : GateState} {e : GateEvent} (h : gateStep s e = some s2) :
    s2.inflight + (if e = GateEvent.exitHandler then 1 else 0)
      = s.inflight + (if e = GateEvent.enterOK then 1 else 0) := by
  cases e with
  | enterOK =>
      by_cases hstop : s.stopped <;> simp [gateStep, hstop] at h
      subst h; simp
  | enterAbort =>
      by_cases hstop : s.stopped <;> simp [gateStep, hstop] at h
      subst h; simp
  | exitHandler =>
      cases hn : s.inflight with
      | zero => simp [gateStep, hn] at h
      | succ m => simp [gateStep, hn] at h; subst h; simp [hn]
  | stopSet => simp [gateStep] at h; subst h; simp
  | stopReturn =>
      by_cases hc : s.stopped = true ∧ s.inflight = 0
      · simp [gateStep, hc.1, hc.2] at h; subst h; simp [hc.2]
      · simp [gateStep] at h
        rcases h with ⟨ha, -⟩
        exact absurd ha hc

/-- Along a gate trace, the final in-flight counter balances handler
entries against handler exits. -/
theorem gateRun_counts {s s2 : GateState} {tr : List GateEvent}
    (h : gateRun s tr = some s2) :
    s2.inflight + countExit tr = s.inflight + countEnter tr := by
  induction tr generalizing s with
  | nil => simp [gateRun] at h; subst h; simp [countEnter, countExit]
  | cons e rest ih =>
      simp only [gateRun] at h
      cases hs : gateStep s e with
      | none => rw [hs] at h; exact absurd h (by simp)
      | some sm =>
          rw [hs] at h
          have hstep := gateStep_counts hs
          have hrest := ih h
          simp only [countEnter, countExit, List.count_cons] at hstep hrest ⊢
          cases e <;> simp_all <;> omega

/-- C5: the abortable handler wrapper checks the stopped flag atomically
with the in-flight increment: a call is admitted exactly when the flag is
unset and aborts (panics with the abort signal, never reaching the
wrapped handler) exactly when it is set; Stop returns only once the flag
is set and the in-flight counter has drained to zero, at which point
every admitted invocation has completed; and no wrapped-handler
invocation starts after Stop has returned. -/
theorem c5_abortable_handler_stop (t1 t2 : List GateEvent) (s : GateState)
    (h : gateRun gateInit (t1 ++ GateEvent.stopReturn :: t2) = some s) :
    (∀ g : GateState, (gateStep g GateEvent.enterOK).isSome = !g.stopped)
    ∧ (∀ g : GateState, (gateStep g GateEvent.enterAbort).isSome = g.stopped)
    ∧ (∃ sm, gateRun gateInit (t1 ++ [GateEvent.stopReturn]) = some sm
        ∧ sm.stopped = true ∧ sm.inflight = 0 ∧ countEnter t1 = countExit t1)
    ∧ GateEvent.enterOK ∉ t2 := by
  have hsplit : t1 ++ GateEvent.stopReturn :: t2 = (t1 ++ [GateEvent.stopReturn]) ++ t2 := by
    rw [List.append_assoc]
    rfl
  rw [hsplit, gateRun_append] at h
  cases hm : gateRun gateInit (t1 ++ [GateEvent.stopReturn]) with
  | none => rw [hm] at h; exact absurd h (by simp)
  | some sm =>
      rw [hm] at h
      simp only [Option.some_bind] at h
      have hm2 := hm
      rw [gateRun_append] at hm2
      cases hp : gateRun gateInit t1 with
      | none => rw [hp] at hm2; exact absurd hm2 (by simp)
      | some sp =>
          rw [hp] at hm2
          simp only [Option.some_bind, gateRun] at hm2
          cases hstep : gateStep sp GateEvent.stopReturn with
          | none => rw [hstep] at hm2; exact absurd hm2 (by simp)
          | some sq =>
              rw [hstep] at hm2
              simp only [gateRun] at hm2
              have hq : sq = sm := by simpa using hm2
              subst hq
              by_cases hc : sp.stopped = true ∧ sp.inflight = 0
              · simp only [gateStep, hc.1, hc.2, if_pos, and_self, if_true,
                  Option.some.injEq] at hstep
                have hsm1 : sq.stopped = true := by
                  rw [← hstep]
                have hsm2 : sq.inflight = 0 := by
                  rw [← hstep]
                have hcount := gateRun_counts hp
                simp [gateInit, hc.2] at hcount
                obtain ⟨-, -, hni⟩ := gateRun_drained hsm1 hsm2 h
                refine ⟨?_, ?_, ⟨sq, rfl, hsm1, hsm2, hcount.symm⟩, hni⟩
                · intro g; cases hg : g.stopped <;> simp [gateStep, hg]
                · intro g; cases hg : g.stopped <;> simp [gateStep, hg]
              · simp [gateStep] at hstep
                rcases hstep with ⟨ha, -⟩
                exact absurd ha hc

/-- C5 witness: a concrete trace with one served request, a Stop, and a
post-stop aborted call. -/
theorem c5_abortable_handler_stop_witness :
    GateEvent.enterOK ∉ ([GateEvent.enterAbort] : List GateEvent) :=
  (c5_abortable_handler_stop
    [GateEvent.enterOK, GateEvent.exitHandler, GateEvent.stopSet]
    [GateEvent.enterAbort] ⟨true, 0, true⟩ (by decide)).2.2.2

/-- C2 counterexample: the claim states that a failed or timed-out peek
yields a server-side TLS session.  On the concrete input where the client
stream starts with byte 80 and the peek times out, the source returns the
plain buffered connection, not a TLS session. -/
theorem c2_counterexample_timeout_is_plain :
    sniff [80] true = SniffedConn.plainBuffered [80]
    ∧ (sniff [80] true).isTLS ≠ true := by
  constructor
  · rfl
  · decide

/-- C2 (amended): the optional-TLS sniff wraps the accepted connection in
a server-side TLS session exactly when the one-byte peek succeeds and
yields the TLS handshake record type 22; on a failed or timed-out peek,
or any other first byte, the connection is returned unwrapped except for
the buffering shim; in every case all client bytes, the peeked byte
included, remain readable downstream in their original order. -/
theorem c2_sniff_decision (stream : List Nat) (timedOut : Bool) :
    (sniff stream timedOut = SniffedConn.tlsServer stream ↔
      timedOut = false ∧ stream.head? = some recordTypeHandshake)
    ∧ ((sniff stream timedOut).isTLS = false →
        sniff stream timedOut = SniffedConn.plainBuffered stream)
    ∧ (sniff stream timedOut).readable = stream := by
  cases timedOut with
  | true =>
      simp [sniff, SniffedConn.readable]
  | false =>
      cases stream with
      | nil => simp [sniff, SniffedConn.readable]
      | cons b rest =>
          by_cases hb : b = recordTypeHandshake <;>
            simp [sniff, hb, SniffedConn.readable, SniffedConn.isTLS]

/-- C3: the h2c handler enters the cleartext-HTTP/2 prior-knowledge path
if and only if the request method is exactly PRI, the header set is
empty, the URL path is exactly the asterisk form and the protocol is
HTTP/2.0; every other request is passed to the fallback handler
unchanged. -/
theorem c3_h2c_dispatch (r : Request) :
    (h2cServeHTTP r = Dispatch.priorKnowledgeH2C r ↔
      r.method = "PRI" ∧ r.headers = [] ∧ r.urlPath = "*" ∧ r.proto = "HTTP/2.0")
    ∧ (h2cServeHTTP r = Dispatch.fallback r ↔
      ¬(r.method = "PRI" ∧ r.headers = [] ∧ r.urlPath = "*" ∧ r.proto = "HTTP/2.0")) := by
  by_cases h :
      r.method = "PRI" ∧ r.headers = [] ∧ r.urlPath = "*" ∧ r.proto = "HTTP/2.0" <;>
    simp [h2cServeHTTP, h]

/-- C4: after a successful hijack, the prior-knowledge path serves the
connection through the HTTP/2 engine exactly when the next bytes are the
preface tail SM CR LF CR LF, with reads serving the reconstructed client
preface followed by the remaining buffered bytes; on a short read or any
other byte sequence the handler panics with the abort signal (no
response, never served as HTTP/1 or HTTP/2) and the raw connection is
closed. -/
theorem c4_prior_knowledge_preface (body : List Nat) :
    (serveH2CWithPriorKnowledge true true body
        = ServeOutcome.serveConn (clientPreface ++ body.drop expectedBody.length)
      ↔ body.take expectedBody.length = expectedBody)
    ∧ (serveH2CWithPriorKnowledge true true body = ServeOutcome.abortPanic
      ↔ body.take expectedBody.length ≠ expectedBody)
    ∧ ((initH2CWithPriorKnowledge true true body).rawConnClosed = true
      ↔ body.take expectedBody.length ≠ expectedBody) := by
  by_cases htake : body.take expectedBody.length = expectedBody
  · have hlen : ¬ body.length < expectedBody.length := by
      intro hcontra
      have := congrArg List.length htake
      simp [List.length_take] at this
      omega
    simp [serveH2CWithPriorKnowledge, initH2CWithPriorKnowledge, hlen, htake]
  · by_cases hlen : body.length < expectedBody.length <;>
      simp [serveH2CWithPriorKnowledge, initH2CWithPriorKnowledge, hlen, htake]

/-- Running a concatenated Run-level trace is running the two parts in
sequence. -/
theorem runRun_append (a b : List RunEvent) (s : RunState) :
    runRun s (a ++ b) = (runRun s a).bind fun s2 => runRun s2 b := by
  induction a generalizing s with
  | nil => simp [runRun]
  | cons e tr ih =>
      simp only [List.cons_append, runRun]
      cases runStep s e with
      | none => simp
      | some s2 => simp [ih]

/-- A single Run-level step from a state whose gate is stopped and
drained keeps the gate stopped and drained, and can not be a
handler-entry event. -/
theorem runStep_drained {s s2 : RunState} {e : RunEvent}
    (h1 : s.gate.stopped = true) (h2 : s.gate.inflight = 0) (h : runStep s e = some s2) :
    s2.gate.stopped = true ∧ s2.gate.inflight = 0
      ∧ e ≠ RunEvent.gate GateEvent.enterOK := by
  cases e with
  | gate ge =>
      simp only [runStep] at h
      cases hg : gateStep s.gate ge with
      | none => rw [hg] at h; exact absurd h (by simp)
      | some g =>
      rw [hg] at h
      have hs2 : s2 = RunState.mk g s.returned := by simpa using h.symm
      obtain ⟨m1, m2, mne⟩ := gateStep_drained h1 h2 hg
      subst hs2
      exact ⟨m1, m2, by simpa using mne⟩
  | runReturn =>
      by_cases hc : s.gate.stopReturned = true ∧ s.returned = false
      · simp [runStep, hc.1, hc.2] at h
        subst h
        exact ⟨h1, h2, by simp⟩
      · simp [runStep] at h
        rcases h with ⟨ha, -⟩
        exact absurd ha (by intro hx; exact hc ⟨hx.1, hx.2⟩)

/-- A Run-level trace from a state whose gate is stopped and drained
keeps the gate stopped and drained and contains no handler entry. -/
theorem runRun_drained {s s2 : RunState} {tr : List RunEvent}
    (h1 : s.gate.stopped = true) (h2 : s.gate.inflight = 0) (h : runRun s tr = some s2) :
    s2.gate.stopped = true ∧ s2.gate.inflight = 0
      ∧ RunEvent.gate GateEvent.enterOK ∉ tr := by
  induction tr generalizing s with
  | nil =>
      simp [runRun] at h
      subst h
      exact ⟨h1, h2, by simp⟩
  | cons e rest ih =>
      simp only [runRun] at h
      cases hs : runStep s e with
      | none => rw [hs] at h; exact absurd h (by simp)
      | some sm =>
          rw [hs] at h
          obtain ⟨m1, m2, mne⟩ := runStep_drained h1 h2 hs
          obtain ⟨r1, r2, rni⟩ := ih m1 m2 h
          refine ⟨r1, r2, ?_⟩
          simp only [List.mem_cons, not_or]
          exact ⟨fun hcon => mne hcon.symm, rni⟩

/-- A single Run-level step preserves the property that a returned Stop
implies a stopped and drained gate. -/
theorem runStep_stopReturned {s s2 : RunState} {e : RunEvent}
    (hsr : s.gate.stopReturned = true → s.gate.stopped = true ∧ s.gate.inflight = 0)
    (h : runStep s e = some s2) :
    s2.gate.stopReturned = true → s2.gate.stopped = true ∧ s2.gate.inflight = 0 := by
  cases e with
  | gate ge =>
      simp only [runStep] at h
      cases hg : gateStep s.gate ge with
      | none => rw [hg] at h; exact absurd h (by simp)
      | some g =>
      rw [hg] at h
      have hs2 : s2 = RunState.mk g s.returned := by simpa using h.symm
      subst hs2
      exact gateStep_stopReturned hsr hg
  | runReturn =>
      by_cases hc : s.gate.stopReturned = true ∧ s.returned = false
      · simp [runStep, hc.1, hc.2] at h
        subst h
        exact hsr
      · simp [runStep] at h
        rcases h with ⟨ha, -⟩
        exact absurd ha (by intro hx; exact hc ⟨hx.1, hx.2⟩)

/-- A Run-level trace preserves the property that a returned Stop implies
a stopped and drained gate. -/
theorem runRun_stopReturned {s s2 : RunState} {tr : List RunEvent}
    (hsr : s.gate.stopReturned = true → s.gate.stopped = true ∧ s.gate.inflight = 0)
    (h : runRun s tr = some s2) :
    s2.gate.stopReturned = true → s2.gate.stopped = true ∧ s2.gate.inflight = 0 := by
  induction tr generalizing s with
  | nil => simp [runRun] at h; subst h; exact hsr
  | cons e rest ih =>
      simp only [runRun] at h
      cases hs : runStep s e with
      | none => rw [hs] at h; exact absurd h (by simp)
      | some sm =>
          rw [hs] at h
          exact ih (runStep_stopReturned hsr hs) h

/-- A single Run-level step changes the in-flight gate counter by the
balance of handler entries and exits. -/
theorem runStep_counts {s s2 : RunState} {e : RunEvent} (h : runStep s e = some s2) :
    s2.gate.inflight + (if e = RunEvent.gate GateEvent.exitHandler then 1 else 0)
      = s.gate.inflight + (if e = RunEvent.gate GateEvent.enterOK then 1 else 0) := by
  cases e with
  | gate ge =>
      simp only [runStep] at h
      cases hg : gateStep s.gate ge with
      | none => rw [hg] at h; exact absurd h (by simp)
      | some g =>
      rw [hg] at h
      have hs2 : s2 = RunState.mk g s.returned := by simpa using h.symm
      subst hs2
      have := gateStep_counts hg
      cases ge <;> simpa using this
  | runReturn =>
      by_cases hc : s.gate.stopReturned = true ∧ s.returned = false
      · simp [runStep, hc.1, hc.2] at h
        subst h
        simp
      · simp [runStep] at h
        rcases h with ⟨ha, -⟩
        exact absurd ha (by intro hx; exact hc ⟨hx.1, hx.2⟩)

/-- Along a Run-level trace, the final in-flight gate counter balances
handler entries against handler exits. -/
theorem runRun_counts {s s2 : RunState} {tr : List RunEvent}
    (h : runRun s tr = some s2) :
    s2.gate.inflight + countExitRun tr = s.gate.inflight + countEnterRun tr := by
  induction tr generalizing s with
  | nil => simp [runRun] at h; subst h; simp [countEnterRun, countExitRun]
  | cons e rest ih =>
      simp only [runRun] at h
      cases hs : runStep s e with
      | none => rw [hs] at h; exact absurd h (by simp)
      | some sm =>
          rw [hs] at h
          have hstep := runStep_counts hs
          have hrest := ih h
          simp only [countEnterRun, countExitRun, List.count_cons] at hstep hrest ⊢
          by_cases he1 : e = RunEvent.gate GateEvent.enterOK <;>
            by_cases he2 : e = RunEvent.gate GateEvent.exitHandler <;>
            simp_all <;> omega

/-- C1: in the Run execution model, once the runReturn event has
occurred — which the source permits only after the abort gate Stop has
returned, itself after the per-family runners, the connection WaitGroup
wait and the optional h2c shutdown — no handler invocation event occurs
in the remainder of any trace, and at the moment of return the in-flight
counter is zero with every started invocation matched by a completion:
the request handler is never invoked after Run returns and no invocation
is in flight when it returns. -/
theorem c1_run_returns_quiescent (t1 t2 : List RunEvent) (s : RunState)
    (h : runRun runInit (t1 ++ RunEvent.runReturn :: t2) = some s) :
    RunEvent.gate GateEvent.enterOK ∉ t2
    ∧ (∃ sm, runRun runInit t1 = some sm ∧ sm.gate.stopped = true
        ∧ sm.gate.inflight = 0 ∧ countEnterRun t1 = countExitRun t1) := by
  rw [runRun_append] at h
  cases hp : runRun runInit t1 with
  | none => rw [hp] at h; exact absurd h (by simp)
  | some sm =>
      rw [hp] at h
      simp only [Option.some_bind, runRun] at h
      cases hstep : runStep sm RunEvent.runReturn with
      | none => rw [hstep] at h; exact absurd h (by simp)
      | some sq =>
          rw [hstep] at h
          have hsr := runRun_stopReturned (s := runInit) (by intro hx; exact absurd hx (by simp [runInit, gateInit])) hp
          by_cases hc : sm.gate.stopReturned = true ∧ sm.returned = false
          · have hdr := hsr hc.1
            simp only [runStep, hc.1, hc.2, and_self, if_true, eq_self_iff_true,
              Option.some.injEq] at hstep
            have hq1 : sq.gate.stopped = true := by rw [← hstep]; exact hdr.1
            have hq2 : sq.gate.inflight = 0 := by rw [← hstep]; exact hdr.2
            obtain ⟨-, -, hni⟩ := runRun_drained hq1 hq2 h
            have hcount := runRun_counts hp
            simp [runInit, gateInit, hdr.2] at hcount
            exact ⟨hni, ⟨sm, rfl, hdr.1, hdr.2, hcount.symm⟩⟩
          · simp [runStep] at hstep
            rcases hstep with ⟨ha, -⟩
            exact absurd ha (by intro hx; exact hc ⟨hx.1, hx.2⟩)

/-- C1 witness: a concrete Run trace with one served request, the
shutdown sequence, the return of Run, and a post-return aborted call. -/
theorem c1_run_returns_quiescent_witness :
    RunEvent.gate GateEvent.enterOK ∉ ([RunEvent.gate GateEvent.enterAbort] : List RunEvent) :=
  (c1_run_returns_quiescent
    [RunEvent.gate GateEvent.enterOK, RunEvent.gate GateEvent.exitHandler,
      RunEvent.gate GateEvent.stopSet, RunEvent.gate GateEvent.stopReturn]
    [RunEvent.gate GateEvent.enterAbort] ⟨⟨true, 0, true⟩, true⟩ (by decide)).1

/-- C2 witness: the decision theorem evaluated on a connection whose
first byte is the handshake record type and whose peek succeeds. -/
theorem c2_sniff_decision_witness : (sniff [22] false).readable = [22] :=
  (c2_sniff_decision [22] false).2.2

/-- C3 witness: the dispatch theorem evaluated on the prior-knowledge
preface request. -/
theorem c3_h2c_dispatch_witness :
    h2cServeHTTP ⟨"PRI", [], "*", "HTTP/2.0"⟩
      = Dispatch.priorKnowledgeH2C ⟨"PRI", [], "*", "HTTP/2.0"⟩ :=
  (c3_h2c_dispatch ⟨"PRI", [], "*", "HTTP/2.0"⟩).1.mpr ⟨rfl, rfl, rfl, rfl⟩

/-- C4 witness: the preface theorem evaluated on a body that is exactly
the preface tail. -/
theorem c4_prior_knowledge_preface_witness :
    serveH2CWithPriorKnowledge true true expectedBody
      = ServeOutcome.serveConn (clientPreface ++ expectedBody.drop expectedBody.length) :=
  (c4_prior_knowledge_preface expectedBody).1.mpr (by decide)

/-- One pendingStep application preserves the pending-connection
invariant. -/
theorem pendingStep_inv {p : PendingConn × WGCounts} (hp : PendingInv p) (op : PendingOp) :
    PendingInv (pendingStep p op) := by
  obtain ⟨⟨im, tr⟩, td, sd⟩ := p
  cases op <;>
    rcases hp with ⟨h1, h2, h3, h4⟩ | ⟨h1, h2, h3, h4⟩ | ⟨h1, h3, h4⟩ <;>
    simp_all [pendingStep, PendingInv]

/-- Folding any operation sequence preserves the pending-connection
invariant. -/
theorem pendingFoldl_inv (ops : List PendingOp) (p : PendingConn × WGCounts)
    (hp : PendingInv p) : PendingInv (ops.foldl pendingStep p) := by
  induction ops generalizing p with
  | nil => exact hp
  | cons op rest ih => exact ih _ (pendingStep_inv hp op)

/-- Once the connection is out of the map, both setTracked and removeConn
are no-ops. -/
theorem pendingStep_removed {p : PendingConn × WGCounts} (h : p.1.inMap = false)
    (op : PendingOp) : pendingStep p op = p := by
  obtain ⟨st, c⟩ := p
  cases op <;> simp_all [pendingStep]

/-- Once the connection is out of the map, any further operation sequence
leaves the state unchanged. -/
theorem pendingFoldl_removed (ops : List PendingOp) (p : PendingConn × WGCounts)
    (h : p.1.inMap = false) : ops.foldl pendingStep p = p := by
  induction ops with
  | nil => rfl
  | cons op rest ih => rw [List.foldl_cons, pendingStep_removed h, ih]

/-- Applying removeConn to any state satisfying the invariant yields the
removed state with exactly one decrement on each WaitGroup. -/
theorem pendingStep_remove_final {p : PendingConn × WGCounts} (hp : PendingInv p) :
    (pendingStep p PendingOp.removeConn).1.inMap = false
    ∧ (pendingStep p PendingOp.removeConn).2.trackDone = 1
    ∧ (pendingStep p PendingOp.removeConn).2.serveDone = 1 := by
  obtain ⟨⟨im, tr⟩, td, sd⟩ := p
  rcases hp with ⟨h1, h2, h3, h4⟩ | ⟨h1, h2, h3, h4⟩ | ⟨h1, h3, h4⟩ <;>
    simp_all [pendingStep]

/-- C6: in the lifecycle tracking, a connection whose engine notification
sequence is one new state, any number of neutral states and exactly one
terminal hijacked-or-closed state contributes exactly one increment and
exactly one decrement to the connection WaitGroup; and an h2c pending
connection on which removeConn eventually runs has its trackWG decrement
performed exactly once — by setTracked or by removal, never both — and
its serveWG decrement exactly once, with neither counter ever decremented
twice under any operation sequence. -/
theorem c6_lifecycle_decrement_once
    (mids : List ConnState) (hm : ∀ x ∈ mids, connTrack x = WGAction.noop)
    (terminal : ConnState)
    (ht : terminal = ConnState.stateHijacked ∨ terminal = ConnState.stateClosed)
    (ops : List PendingOp) (hop : PendingOp.removeConn ∈ ops) :
    (connWGAdds (ConnState.stateNew :: (mids ++ [terminal])) = 1
      ∧ connWGDones (ConnState.stateNew :: (mids ++ [terminal])) = 1)
    ∧ ((pendingRun ops).2.trackDone = 1 ∧ (pendingRun ops).2.serveDone = 1)
    ∧ (∀ ops2 : List PendingOp,
        (pendingRun ops2).2.trackDone ≤ 1 ∧ (pendingRun ops2).2.serveDone ≤ 1) := by
  have hinit : PendingInv (addPendingState, ⟨0, 0⟩) := by
    simp [PendingInv, addPendingState]
  refine ⟨?_, ?_, ?_⟩
  · have hadds : List.countP (fun s => connTrack s == WGAction.add) mids = 0 := by
      rw [List.countP_eq_zero]
      intro x hx
      simp [hm x hx]
    have hdones : List.countP (fun s => connTrack s == WGAction.done) mids = 0 := by
      rw [List.countP_eq_zero]
      intro x hx
      simp [hm x hx]
    rcases ht with rfl | rfl <;>
      simp only [connWGAdds, connWGDones, List.countP_cons, List.countP_append,
        List.countP_nil, hadds, hdones] <;>
      decide
  · obtain ⟨a, b, rfl⟩ := List.append_of_mem hop
    have hinv : PendingInv (a.foldl pendingStep (addPendingState, ⟨0, 0⟩)) :=
      pendingFoldl_inv a _ hinit
    have hfin := pendingStep_remove_final hinv
    rw [pendingRun, List.foldl_append, List.foldl_cons, pendingFoldl_removed b _ hfin.1]
    exact ⟨hfin.2.1, hfin.2.2⟩
  · intro ops2
    have hinv : PendingInv (pendingRun ops2) := pendingFoldl_inv ops2 _ hinit
    rcases hinv with ⟨-, -, h3, h4⟩ | ⟨-, -, h3, h4⟩ | ⟨-, h3, h4⟩ <;>
      simp [h3, h4]

/-- C6 witness: a connection that goes new, active, hijacked, and whose
pending entry is tracked and then removed twice. -/
theorem c6_lifecycle_decrement_once_witness :
    (pendingRun [PendingOp.setTracked, PendingOp.removeConn, PendingOp.removeConn]).2.trackDone
      = 1 :=
  (c6_lifecycle_decrement_once [ConnState.stateActive] (by decide)
    ConnState.stateHijacked (Or.inl rfl)
    [PendingOp.setTracked, PendingOp.removeConn, PendingOp.removeConn]
    (by decide)).2.1.1

/-- Calling Close on a wrapper whose sync.Once has already fired returns
the cached result without touching the underlying listener, any number of
times. -/
theorem closeCalls_done (m : Nat) (u : GoListener) (e : Option Nat) :
    closeCalls u ⟨true, e⟩ m = (u, ⟨true, e⟩, List.replicate m e) := by
  induction m generalizing u with
  | zero => simp [closeCalls]
  | succ k ih => simp [closeCalls, onceCloseListenerClose, ih, List.replicate_succ]

/-- C7: for the once-close listener wrappers (the stream and QUIC
variants have identical code), any positive number of Close calls —
serialized by sync.Once in the source, hence linearized here — executes
the underlying Close exactly once, and every call returns the same
cached result of that single underlying close. -/
theorem c7_once_close_exactly_once (u : GoListener) (n : Nat) (hn : 0 < n) :
    (closeCalls u ⟨false, none⟩ n).1.closeCount = u.closeCount + 1
    ∧ (closeCalls u ⟨false, none⟩ n).2.2 = List.replicate n u.closeResult := by
  cases n with
  | zero => exact absurd hn (by simp)
  | succ m =>
      constructor <;>
        simp [closeCalls, onceCloseListenerClose, closeCalls_done, List.replicate_succ]

/-- C7 witness: three Close calls against a stub whose close yields a
fixed result. -/
theorem c7_once_close_exactly_once_witness :
    (closeCalls ⟨some 7, 0⟩ ⟨false, none⟩ 3).2.2 = List.replicate 3 (some 7) :=
  (c7_once_close_exactly_once ⟨some 7, 0⟩ 3 (by decide)).2

/-- The combined error is nil exactly when no component survives the nil
filter. -/
theorem multierrCombine_eq_none_aux (es : List (Option GoErr)) :
    multierrCombine es = none ↔ es.filterMap id = [] := by
  unfold multierrCombine
  cases hf : es.filterMap id <;> simp

/-- The combined error is nil exactly when every component is nil. -/
theorem multierrCombine_eq_none (es : List (Option GoErr)) :
    multierrCombine es = none ↔ ∀ e ∈ es, e = none := by
  rw [multierrCombine_eq_none_aux, List.filterMap_eq_nil_iff]
  simp only [id_eq]

/-- Every non-nil component of a combined error appears in the result. -/
theorem multierrCombine_mem {es : List (Option GoErr)} {e : GoErr} (h : some e ∈ es) :
    ∃ l, multierrCombine es = some l ∧ e ∈ l := by
  have hmem : e ∈ es.filterMap id := by
    rw [List.mem_filterMap]
    exact ⟨some e, h, rfl⟩
  unfold multierrCombine
  cases hf : es.filterMap id with
  | nil => rw [hf] at hmem; exact absurd hmem (by simp)
  | cons a l =>
      rw [hf] at hmem
      exact ⟨a :: l, rfl, hmem⟩

/-- C8: both runner tails normalize an engine-closed sentinel serve error
to success — http.ErrServerClosed for the TCP runner, and additionally
quic.ErrServerClosed for the QUIC runner — and return the aggregate
combination of the callback error, the normalized serve error and the
close error or errors: the result is nil exactly when every component is
nil, and every non-nil component appears in the aggregate rather than
only the first one. -/
theorem c8_runner_error_aggregation (cb se ce cpe : Option GoErr) :
    (runResultH1H2 cb se ce = none ↔
      cb = none ∧ normalizeServeErrorH1H2 se = none ∧ ce = none)
    ∧ runResultH1H2 cb (some GoErr.httpErrServerClosed) ce = runResultH1H2 cb none ce
    ∧ (∀ e : GoErr,
        cb = some e ∨ normalizeServeErrorH1H2 se = some e ∨ ce = some e →
        ∃ l, runResultH1H2 cb se ce = some l ∧ e ∈ l)
    ∧ (runResultH3 cb se ce cpe = none ↔
      cb = none ∧ normalizeServeErrorH3 se = none ∧ ce = none ∧ cpe = none)
    ∧ runResultH3 cb (some GoErr.quicErrServerClosed) ce cpe = runResultH3 cb none ce cpe
    ∧ runResultH3 cb (some GoErr.httpErrServerClosed) ce cpe = runResultH3 cb none ce cpe
    ∧ (∀ e : GoErr,
        cb = some e ∨ normalizeServeErrorH3 se = some e ∨ ce = some e ∨ cpe = some e →
        ∃ l, runResultH3 cb se ce cpe = some l ∧ e ∈ l) := by
  refine ⟨?_, ?_, ?_, ?_, ?_, ?_, ?_⟩
  · rw [runResultH1H2, multierrCombine_eq_none]
    simp
  · simp [runResultH1H2, normalizeServeErrorH1H2]
  · intro e he
    apply multierrCombine_mem
    rcases he with he | he | he <;> simp [he]
  · rw [runResultH3, multierrCombine_eq_none]
    simp
  · simp [runResultH3, normalizeServeErrorH3]
  · simp [runResultH3, normalizeServeErrorH3]
  · intro e he
    apply multierrCombine_mem
    rcases he with he | he | he | he <;> simp [he]

/-- C8 witness: the sentinel serve error aggregated with a real callback
error. -/
theorem c8_runner_error_aggregation_witness :
    runResultH1H2 (some (GoErr.other 1)) (some GoErr.httpErrServerClosed) none
      = runResultH1H2 (some (GoErr.other 1)) none none :=
  (c8_runner_error_aggregation (some (GoErr.other 1)) (some GoErr.httpErrServerClosed)
    none none).2.1

/-- C9: the handler wrapper installed by Run recovers panics; a panic
value different from the deliberate abort signal prints the value plus a
stack trace and terminates the process with exit status 2, never being
silently swallowed, while a panic with exactly the abort signal value
does not terminate the process, and a handler that does not panic leaves
the process running. -/
theorem c9_unexpected_panic_fatal (v : PanicVal) :
    (exitOnPanicHandler (some v) = ProcOutcome.exited 2 true ↔
      v ≠ PanicVal.errAbortHandler)
    ∧ exitOnPanicHandler (some PanicVal.errAbortHandler) = ProcOutcome.normalReturn
    ∧ exitOnPanicHandler none = ProcOutcome.normalReturn := by
  refine ⟨?_, rfl, rfl⟩
  by_cases hv : v = PanicVal.errAbortHandler
  · subst hv
    simp [exitOnPanicHandler, exitOnPanic]
  · simp [exitOnPanicHandler, exitOnPanic, hv]

/-- C9 witness: an unexpected panic value terminates the process with
status 2 and printed diagnostics. -/
theorem c9_unexpected_panic_fatal_witness :
    exitOnPanicHandler (some (PanicVal.other 5)) = ProcOutcome.exited 2 true :=
  (c9_unexpected_panic_fatal (PanicVal.other 5)).1.mpr (by decide)

/-- C10: constructing a TLS or OptionalTLS socket with a nil TLS
configuration panics immediately at construction time with a nil-pointer
dereference inside defaultNextProtosH2, before any socket value exists to
listen on; with a non-nil configuration whose NextProtos is unset, a
clone with NextProtos set to h2 is stored while the caller configuration
object is left unchanged, and a configuration with NextProtos already set
is passed through as the same object. -/
theorem c10_tls_nil_config_panics (address : String) (t : Int) (cfg : TLSConfig)
    (h : cfg.nextProtos = none) :
    TLS address none = Except.error GoPanic.nilPointerDereference
    ∧ OptionalTLS address none t = Except.error GoPanic.nilPointerDereference
    ∧ defaultNextProtosH2 (some cfg)
        = Except.ok (cfg, { cfg with nextProtos := some [http2NextProtoTLS] })
    ∧ (∀ cfg2 : TLSConfig, cfg2.nextProtos.isSome = true →
        defaultNextProtosH2 (some cfg2) = Except.ok (cfg2, cfg2)) := by
  refine ⟨rfl, rfl, ?_, ?_⟩
  · simp [defaultNextProtosH2, h]
  · intro cfg2 h2
    simp [defaultNextProtosH2, h2]

/-- C10 witness: the constructors applied to a nil configuration, via a
configuration value with unset NextProtos. -/
theorem c10_tls_nil_config_panics_witness :
    TLS "addr" none = Except.error GoPanic.nilPointerDereference
    ∧ OptionalTLS "addr" none 0 = Except.error GoPanic.nilPointerDereference :=
  ⟨(c10_tls_nil_config_panics "addr" 0 ⟨none, 0⟩ rfl).1,
   (c10_tls_nil_config_panics "addr" 0 ⟨none, 0⟩ rfl).2.1⟩

end HTTPServer
